import Mathlib

/-!
Verification development for the image module of mathics-core
(src/mathics/builtin/drawing/image.py).

The Python module stores an image as a numpy array of pixel values
together with a color space string and a metadata dictionary.  We embed
the relevant operations over an exact model: pixel values are rationals
(the float values appearing in the claims are exactly representable),
a numpy array is a rectangular nested list tagged with its element dtype,
and every fallible operation returns an Option.
-/

/- The arithmetic on Rat is sealed behind irreducibility in core; the
concrete evaluations below go through the kernel with decide, which
needs these definitions reducible. -/
unseal Rat.mul Rat.inv Rat.add Rat.sub Rat.ofScientific

namespace MathicsImage

/-- The numpy element types that `Image.storage_type` distinguishes
(float64/float32 are collapsed to one constructor; the claims never
separate them). -/
inductive DType where
  | float64
  | uint8
  | uint16
  | uint32
  | boolean
  deriving DecidableEq

/-- A three dimensional pixel array `[height][width][channel]`.
`Image.__init__` reshapes two dimensional data to this form, so every
stored pixel array is modelled three dimensional. -/
abbrev Pix3 := List (List (List Rat))

/-- A numpy array as the image code uses it: an element dtype plus the
nested values.  Values of integer dtypes are the integers they hold
(e.g. a uint8 array holds rationals in 0..255). -/
structure NPArr where
  dtype : DType
  data : Pix3
  deriving DecidableEq

/-- The `Image` atom of image.py: pixel array, color space name,
metadata (a dict, modelled as an association list) and whether a cached
PIL handle (`self.pillow`) is present.  `hasattr(image, "pillow")`
branches on the last field. -/
structure MImage where
  pixels : NPArr
  color_space : String
  metadata : List (String × String)
  pillowCached : Bool
  deriving DecidableEq

/-- `numpy.array_equal(a, b)`: true iff the two arrays have the same
shape and equal element VALUES.  The dtype is not compared, so a float64
array `[[1.0]]` and a uint8 array `[[1]]` are array_equal.  With nested
lists, shape plus values is exactly list equality of the data. -/
def array_equal (a b : NPArr) : Bool :=
  decide (a.data = b.data)

/-- `Image.sameQ` (image.py lines 2289-2295): same color space, same
metadata, and `numpy.array_equal` on the pixel arrays. -/
def sameQ (i j : MImage) : Bool :=
  decide (i.color_space = j.color_space) &&
  decide (i.metadata = j.metadata) &&
  array_equal i.pixels j.pixels

/-- `ndarray.tobytes()`: the raw byte serialization of an array.  It is
determined by (and, for a fixed dtype, determines) the element dtype and
the flattened values, and does not depend on the shape; we model it as
that pair. -/
def tobytes (a : NPArr) : DType × List Rat :=
  (a.dtype, a.data.flatten.flatten)

/-- The tuple hashed in `Image.__init__` (lines 2114-2121):
`(SymbolImage, pixels.tobytes(), color_space, frozenset(metadata))`.
`self.hash` is `hash` of this tuple, i.e. a pure function of it; we model
the hash by the tuple itself (the constant head symbol is dropped). -/
def hashKey (i : MImage) : (DType × List Rat) × String × List (String × String) :=
  (tobytes i.pixels, i.color_space, i.metadata)

/-- Elementwise map over a three dimensional array (a vectorized numpy
operation). -/
def map3 (f : Rat → Rat) (p : Pix3) : Pix3 :=
  p.map (fun plane => plane.map (fun row => row.map f))

/-- The flattened element list of a three dimensional array. -/
def flat3 (p : Pix3) : List Rat :=
  p.flatten.flatten

/-- The nested length structure of an array; two rectangular numpy
arrays have equal shape iff their structures agree. -/
def shape3 (p : Pix3) : List (List Nat) :=
  p.map (fun plane => plane.map List.length)

/-- Clip a value to the interval 0..1, as `ndarray.clip(0, 1)` does
elementwise: first the lower bound, then the upper bound. -/
def clip01 (q : Rat) : Rat :=
  min 1 (max 0 q)

/-- Modelled from the spec: `pixels_as_float` is imported from
`mathics.eval.image`, which is not part of the sources; section 4.1 of
the spec defines the Real cast as division of the source values by the
maximum representable value of the source type (255 for Byte, 65535 for
Bit16, boolean treated as 0/1) and floating data is kept unchanged.
The uint32 case divides by the maximum 32 bit value accordingly. -/
def pixels_as_float (a : NPArr) : NPArr :=
  let f : Rat → Rat :=
    match a.dtype with
    | .float64 => fun v => v
    | .uint8 => fun v => v / 255
    | .uint16 => fun v => v / 65535
    | .uint32 => fun v => v / 4294967295
    | .boolean => fun v => v
  ⟨.float64, map3 f a.data⟩

/-! ## ImageReflect (image.py lines 506-585) -/

/-- The four reflection sides.  The constructor order is the sort order
of the Python symbol names `System Bottom < System Left < System Right
< System Top`, which `specs.sort()` uses. -/
inductive Side where
  | bottom
  | left
  | right
  | top
  deriving DecidableEq

/-- Position of a side in the sorted order of the symbol names. -/
def Side.ord : Side → Nat
  | .bottom => 0
  | .left => 1
  | .right => 2
  | .top => 3

/-- `specs.sort()`: the rule sides are sorted before the table lookup,
so `Top -> Bottom` is looked up as `(Bottom, Top)`. -/
def sortPair (a b : Side) : Side × Side :=
  if a.ord ≤ b.ord then (a, b) else (b, a)

/-- `numpy.flipud`: reverse the first axis. -/
def flipud (p : Pix3) : Pix3 :=
  p.reverse

/-- `numpy.fliplr`: reverse the second axis. -/
def fliplr (p : Pix3) : Pix3 :=
  p.map List.reverse

/-- `numpy.transpose` with no axes argument reverses ALL axes, so on the
three dimensional pixel array it maps entry `(i, j, k)` to `(k, j, i)`:
`result[k][j][i] = p[i][j][k]`.  We build the result by explicit
indexing over the first dimensions of `p`. -/
def np_transpose (p : Pix3) : Pix3 :=
  let d1 := (p.headD []).length
  let d2 := ((p.headD []).headD []).length
  (List.range d2).map (fun k =>
    (List.range d1).map (fun j =>
      p.map (fun plane => (plane.getD j []).getD k 0)))

/-- `anti_transpose` from `ImageReflect.eval`:
`numpy.flipud(numpy.transpose(numpy.flipud(i)))`. -/
def anti_transpose (p : Pix3) : Pix3 :=
  flipud (np_transpose (flipud p))

/-- The method table of `ImageReflect.eval`, keyed by the SORTED side
pair; the six unsorted combinations never occur as keys, matching the
Python dict whose `.get` would miss them. -/
def reflectMethod : Side × Side → Option (Pix3 → Pix3)
  | (.bottom, .top) => some flipud
  | (.left, .right) => some fliplr
  | (.left, .top) => some np_transpose
  | (.right, .top) => some anti_transpose
  | (.bottom, .left) => some anti_transpose
  | (.bottom, .right) => some np_transpose
  | (.bottom, .bottom) => some id
  | (.top, .top) => some id
  | (.left, .left) => some id
  | (.right, .right) => some id
  | _ => none

/-- `ImageReflect.eval` for `ImageReflect[image, orig -> dest]` where
both sides are symbols: sort the pair, look up the pixel operation, and
return `Image(method(image.pixels), image.color_space)` (metadata and
pillow cache are not propagated by the Image constructor defaults). -/
def imageReflect (img : MImage) (orig dest : Side) : Option MImage :=
  match reflectMethod (sortPair orig dest) with
  | none => none
  | some f => some ⟨⟨img.pixels.dtype, f img.pixels.data⟩, img.color_space, [], false⟩

/-! ## ImageTake (image.py lines 1628-1802) -/

/-- `PIL.Image.crop((left, upper, right, lower))` on the cached pillow
handle, whose pixel content mirrors `image.pixels`: it keeps rows
`upper..lower-1` and columns `left..right-1`.  PIL raises a ValueError
when `right < left` or `lower < upper`, modelled as `none`. -/
def pillowCrop (p : Pix3) (left upper right lower : Int) : Option Pix3 :=
  if right < left ∨ lower < upper then none
  else some (((p.drop upper.toNat).take (lower - upper).toNat).map
    (fun row => (row.drop left.toNat).take (right - left).toNat))

/-- `ImageTake.eval_n` (lines 1692-1710), for `ImageTake[image, n]`.
For `n >= 0` the first `min n height` rows are kept, otherwise the rows
from `max 0 (height + n)` on.  When the image carries a cached pillow
handle the same region is produced by `pillow.crop`; when it does not,
the final `return Image(pixels, image.color_space, pillow=pillow)`
references the local name `pillow` that was never assigned, so the call
raises UnboundLocalError, modelled as `none`. -/
def imageTake_eval_n (img : MImage) (n : Int) : Option MImage :=
  let maxY : Int := img.pixels.data.length
  let maxX : Int := (img.pixels.data.headD []).length
  let box : Int × Int × Int × Int :=
    if n ≥ 0 then (0, 0, maxX, min n maxY)
    else (0, max 0 (maxY + n), maxX, maxY)
  if img.pillowCached then
    match box with
    | (l, u, r, lo) =>
      (pillowCrop img.pixels.data l u r lo).map
        (fun q => ⟨⟨img.pixels.dtype, q⟩, img.color_space, [], true⟩)
  else
    none

/-- `ImageTake.eval_rows` (lines 1712-1739), for
`ImageTake[image, {r1, r2}]`.  The adjusted first row is
`min r1 height` if `r1 > 0` else `max 0 (height + r1)`; the adjusted
last row uses `r1` again in its negative branch (the code reads
`max(0, max_row + first_row)` where `last_row` was surely meant).  Rows
`adjusted_first..adjusted_last-1` are kept.  With a cached pillow handle
the crop box is `(0, first, width, last)`; without one the final return
again references the unassigned local `pillow` and raises
UnboundLocalError (`none`). -/
def imageTake_eval_rows (img : MImage) (r1 r2 : Int) : Option MImage :=
  let maxRow : Int := img.pixels.data.length
  let maxCol : Int := (img.pixels.data.headD []).length
  let aFirst : Int := if r1 > 0 then min r1 maxRow else max 0 (maxRow + r1)
  let aLast : Int := if r2 > 0 then min r2 maxRow else max 0 (maxRow + r1)
  if img.pillowCached then
    (pillowCrop img.pixels.data 0 aFirst maxCol aLast).map
      (fun q => ⟨⟨img.pixels.dtype, q⟩, img.color_space, [], true⟩)
  else
    none

/-- `ImageTake.eval_rows_cols` (lines 1741-1787), for
`ImageTake[image, {r1, r2}, {c1, c2}]`.  The four bounds are adjusted as
in `eval_rows` (each with its own value; no off-by-one conversion from
the 1-based arguments).  On the pillow path the crop box is
`(first_col, first_row, last_col, last_row)`; on the array path the code
slices `pixels[first_col:last_col, last_row:last_row]` (column bounds
used on the row axis and an empty slice on the column axis) and then
raises UnboundLocalError at the final return (`none`). -/
def imageTake_eval_rows_cols (img : MImage) (r1 r2 c1 c2 : Int) : Option MImage :=
  let maxRow : Int := img.pixels.data.length
  let maxCol : Int := (img.pixels.data.headD []).length
  let aFR : Int := if r1 > 0 then min r1 maxRow else max 0 (maxRow + r1)
  let aLR : Int := if r2 > 0 then min r2 maxRow else max 0 (maxRow + r2)
  let aFC : Int := if c1 > 0 then min c1 maxCol else max 0 (maxCol + c1)
  let aLC : Int := if c2 > 0 then min c2 maxCol else max 0 (maxCol + c2)
  if img.pillowCached then
    (pillowCrop img.pixels.data aFC aFR aLC aLR).map
      (fun q => ⟨⟨img.pixels.dtype, q⟩, img.color_space, [], true⟩)
  else
    none

/-- Modelled from the spec: `numpy_flip(pixels, axis)` is imported from
`mathics.eval.image`, which is not in the sources; section 4.4 of the
spec says the selected sub-range is reversed along that axis.  Axis 0
reverses the rows, axis 1 reverses within each row. -/
def numpy_flip (p : Pix3) (axis : Nat) : Pix3 :=
  if axis = 0 then p.reverse else p.map List.reverse

/-- `ImageTake._image_slice` (lines 1665-1681): clamp both 1-based
bounds to `0..n-1` after subtracting 1, return the ascending slice
bounds (start, stop) and whether the pixels must be flipped because the
first bound exceeded the second.  This helper is defined but never
called by the eval methods (the FIXME comments in the source note it). -/
def image_slice (n : Int) (i1 i2 : Int) : (Int × Int) × Bool :=
  let p1 := min (max (i1 - 1) 0) (n - 1)
  let p2 := min (max (i2 - 1) 0) (n - 1)
  ((min p1 p2, 1 + max p1 p2), p1 > p2)

/-- Applying the result of `_image_slice` to the rows of an image: take
the slice, then flip along the axis when the flag demands it (this is
the reversal behavior the spec describes). -/
def image_slice_rows (p : Pix3) (i1 i2 : Int) : Pix3 :=
  let s := image_slice p.length i1 i2
  let sliced := (p.drop s.1.1.toNat).take (s.1.2 - s.1.1).toNat
  if s.2 then numpy_flip sliced 0 else sliced

/-- The two-axis crop as the spec prescribes it (section 4.4 and the
design note): rows `r1..r2` (1-based, inclusive) first, then columns
`c1..c2`, each a straightforward single-axis crop. -/
def specRowsColsCrop (p : Pix3) (r1 r2 c1 c2 : Int) : Pix3 :=
  (((p.drop (r1 - 1).toNat).take (r2 - r1 + 1).toNat).map
    (fun row => (row.drop (c1 - 1).toNat).take (c2 - c1 + 1).toNat))

/-! ## Rank linearization: `_linearize` (image.py lines 1480-1506)

The Python function reshapes the array to one dimension, takes
`u = numpy.unique(a)` (the sorted distinct values, `n` of them),
initializes per-element search bounds `lower = 0`, `upper = n - 1`, and
runs the halving loop `while q > 2` with `q` starting at `n`, all
elements in lock step; since every numpy operation in the loop is
elementwise, each element evolves independently and the lock step is a
per-element iteration count.  Finally each element gets
`lower if a == h[lower] else upper`, reshaped to the input shape. -/

/-- `numpy.unique`: the distinct values in ascending order (the code
sorts it again into `h`, which is the identity on an already sorted
list). -/
def npUnique (l : List Rat) : List Rat :=
  List.insertionSort (· ≤ ·) l.dedup

/-- Number of iterations of the `while q > 2` loop when `q` starts at
the second argument; each round does `q = (q + 1) // 2`.  Structural
recursion on a fuel argument (the loop variable strictly decreases, so
fuel equal to the start value suffices; see `iterCount_eq`). -/
def iterCountAux : Nat → Nat → Nat
  | 0, _ => 0
  | fuel + 1, q => if 2 < q then iterCountAux fuel ((q + 1) / 2) + 1 else 0

/-- Number of rounds of the halving loop for start value `q`. -/
def iterCount (q : Nat) : Nat :=
  iterCountAux q q

/-- One round of the vectorized binary search for one element `v` with
bounds `(lower, upper)`: `m = (lower + upper) >> 1`; if `v <= h[m]` the
new bounds are `(lower, m)`, else `(m + 1, upper)`. -/
def searchStep (h : List Rat) (v : Rat) : Nat × Nat → Nat × Nat
  | (l, u) =>
    if v ≤ h.getD ((l + u) / 2) 0 then (l, (l + u) / 2)
    else ((l + u) / 2 + 1, u)

/-- Iterate `searchStep` a given number of rounds. -/
def searchIter (h : List Rat) (v : Rat) : Nat → Nat × Nat → Nat × Nat
  | 0, lu => lu
  | k + 1, lu => searchIter h v k (searchStep h v lu)

/-- The rank the loop assigns to one element `v`: run the binary search
from `(0, n - 1)` for the lock step iteration count, then pick `lower`
if `h[lower] == v` and `upper` otherwise. -/
def elemRank (h : List Rat) (v : Rat) : Nat :=
  if h.getD (searchIter h v (iterCount h.length) (0, h.length - 1)).1 0 = v then
    (searchIter h v (iterCount h.length) (0, h.length - 1)).1
  else
    (searchIter h v (iterCount h.length) (0, h.length - 1)).2

/-- `_linearize` on a two dimensional array: the per-element ranks in
the original shape, and the distinct count `n`. -/
def linearize (a : List (List Rat)) : List (List Nat) × Nat :=
  (a.map (fun row => row.map (elemRank (npUnique a.flatten))),
   (npUnique a.flatten).length)

/-! ## Image arithmetic: `_ImageArithmetic` (image.py lines 178-217) -/

/-- The three operators `ImageAdd`, `ImageSubtract`, `ImageMultiply`
resolve to the numpy ufuncs `add`, `subtract`, `multiply`. -/
inductive ArithOp where
  | add
  | subtract
  | multiply
  deriving DecidableEq

/-- The binary operation of each ufunc. -/
def ArithOp.apply : ArithOp → Rat → Rat → Rat
  | .add, x, y => x + y
  | .subtract, x, y => x - y
  | .multiply, x, y => x * y

/-- An argument of an arithmetic builtin before conversion: a number
(Integer, Rational or Real), an image, or anything else (modelled by the
name of the offending expression). -/
inductive Arg where
  | num (q : Rat)
  | image (i : MImage)
  | other (name : String)
  deriving DecidableEq

/-- A converted argument: images become their float pixel arrays, and
numbers become Python floats. -/
inductive ConvVal where
  | arr (d : Pix3)
  | scal (q : Rat)
  deriving DecidableEq

/-- `_ImageArithmetic.convert_args` (lines 186-196): convert the
arguments left to right; the first argument that is neither an image
nor a number stops the loop and is returned as the offending operand
(`(None, arg)` in Python, `Except.error arg` here). -/
def convert_args : List Arg → Except Arg (List ConvVal)
  | [] => .ok []
  | .image i :: rest =>
    (convert_args rest).map (fun vs => .arr (pixels_as_float i.pixels).data :: vs)
  | .num q :: rest =>
    (convert_args rest).map (fun vs => .scal q :: vs)
  | .other n :: _ => .error (.other n)

/-- One step of `_ImageArithmetic._reduce`: `ufunc(result, i, result)`.
A scalar operand is broadcast; an array operand must have the same shape
(a shape mismatch raises in numpy, modelled as `none`; broadcasting of
unequal shapes is not exercised by the claims). -/
def reduceStep (op : ArithOp) (acc : Pix3) : ConvVal → Option Pix3
  | .scal q => some (map3 (fun x => op.apply x q) acc)
  | .arr d =>
    if shape3 acc = shape3 d then
      some (acc.zipWith (fun pa pb => pa.zipWith (fun ra rb => ra.zipWith op.apply rb) pb) d)
    else none

/-- `_ImageArithmetic._reduce` (lines 198-208): the first converted
value initializes the accumulator (copied), the rest are combined left
to right.  The first value is always the image the pattern matched, so
an initial scalar cannot occur (`none`). -/
def arithReduce (op : ArithOp) : List ConvVal → Option Pix3
  | [] => none
  | .scal _ :: _ => none
  | .arr d :: rest => rest.foldlM (reduceStep op) d

/-- The possible outcomes of `_ImageArithmetic.eval`: the `bddarg`
message naming the offending operand (the expression is then left
unevaluated), a raised numpy exception, or a result image. -/
inductive ArithResult where
  | message (a : Arg)
  | raised
  | image (i : MImage)
  deriving DecidableEq

/-- `_ImageArithmetic.eval` (lines 210-217): convert `image` followed by
the remaining arguments; on a conversion failure report `bddarg` with
the offending operand; otherwise reduce with the ufunc, clip the result
to 0..1, and build `Image(result, image.color_space)`. -/
def arithEval (op : ArithOp) (image : MImage) (args : List Arg) : ArithResult :=
  match convert_args (Arg.image image :: args) with
  | .error a => .message a
  | .ok vals =>
    match arithReduce op vals with
    | none => .raised
    | some d => .image ⟨⟨.float64, map3 clip01 d⟩, image.color_space, [], false⟩

/-! ## PixelValue (image.py lines 1805-1852) -/

/-- `PixelValue.eval` for integer coordinates: `height` and `width` are
the first two shape components; coordinates outside
`1..width × 1..height` report the `nopad` message (`none`); otherwise
the channel values of `pixels_as_float(pixels)[height - y, x - 1]` are
returned. -/
def pixelValue (img : MImage) (x y : Int) : Option (List Rat) :=
  let height : Int := img.pixels.data.length
  let width : Int := (img.pixels.data.headD []).length
  if 1 ≤ x ∧ x ≤ width ∧ 1 ≤ y ∧ y ≤ height then
    some ((((pixels_as_float img.pixels).data.getD (height - y).toNat []).getD
      (x - 1).toNat []))
  else
    none

/-! ## Image construction: `_image_pixels` and `ImageAtom.eval_create`
(image.py lines 2043-2052 and 2338-2346) -/

/-- Raw nested numeric data passed to `Image[array]`, with its nesting
depth (numpy infers the number of dimensions from the nesting). -/
inductive PyRaw where
  | r2 (m : List (List Rat))
  | r3 (p : Pix3)
  deriving DecidableEq

/-- All rows of a two dimensional nesting have equal length (otherwise
`numpy.array(..., dtype=float64)` raises ValueError). -/
def rect2 (m : List (List Rat)) : Bool :=
  m.all (fun row => row.length = (m.headD []).length)

/-- Full rectangularity of a three dimensional nesting. -/
def rect3 (p : Pix3) : Bool :=
  p.all (fun plane => plane.length = (p.headD []).length) &&
  p.all (fun plane => plane.all
    (fun row => row.length = ((p.headD []).headD []).length))

/-- `_image_pixels`: build the float64 array; reject irregular data and
any shape that is neither two dimensional nor three dimensional with
1, 3 or 4 channels.  An empty outer list is one dimensional for numpy
and is likewise rejected. -/
def image_pixels : PyRaw → Option NPArr
  | .r2 m =>
    if m ≠ [] ∧ rect2 m then some ⟨.float64, m.map (fun row => row.map (fun v => [v]))⟩
    else none
  | .r3 p =>
    if p ≠ [] ∧ rect3 p ∧ ((p.headD []).headD []).length ∈ [1, 3, 4] then
      some ⟨.float64, p⟩
    else none

/-- Channel count as `eval_create` sees it, for the color space choice
(3 or 4 channels in a three dimensional input mean RGB). -/
def rawIsRGB : PyRaw → Bool
  | .r2 _ => false
  | .r3 p => ((p.headD []).headD []).length ∈ [3, 4]

/-- `ImageAtom.eval_create` (lines 2338-2346): on acceptable data the
image is built from `pixels.clip(0, 1)` with the inferred color space;
otherwise the expression stays unevaluated (`none`).  The reshape of two
dimensional data to `(h, w, 1)` happens in `Image.__init__`. -/
def eval_create (raw : PyRaw) : Option MImage :=
  (image_pixels raw).map (fun a =>
    ⟨⟨.float64, map3 clip01 a.data⟩,
     if rawIsRGB raw then "RGB" else "Grayscale", [], false⟩)

/-! ## Claim C4: sameQ and the identity hash -/

/-- A float64 image and a uint8 image with the same single pixel value:
numpy array_equal compares VALUES, so sameQ holds, while the byte
serializations (and hence the hashed tuples) differ. -/
def c4imgFloat : MImage := ⟨⟨.float64, [[[1]]]⟩, "Grayscale", [], false⟩

/-- The uint8 twin of `c4imgFloat`. -/
def c4imgByte : MImage := ⟨⟨.uint8, [[[1]]]⟩, "Grayscale", [], false⟩

/-- C4 counterexample: two Image atoms that compare equal under sameQ
although their pixel arrays are NOT bit-exact equal (different storage
dtypes, different byte serializations), and whose hashed tuples
`(pixel bytes, color space, metadata)` therefore differ.  This refutes
both the only-if direction of the claimed equivalence and the claimed
equal-hash consequence. -/
theorem c4_counterexample :
    sameQ c4imgFloat c4imgByte = true ∧
    tobytes c4imgFloat.pixels ≠ tobytes c4imgByte.pixels ∧
    hashKey c4imgFloat ≠ hashKey c4imgByte := by
  decide

/-- C4 (amended): two Image atoms compare equal (sameQ) iff they have
identical color space, identical metadata, and pixel arrays equal in
shape and element value (the storage dtype is not compared); two equal
atoms that moreover share the storage dtype have equal hash inputs, the
hash being a pure function of (pixel bytes, color space, metadata). -/
theorem c4_sameQ_hash (i j : MImage) :
    (sameQ i j = true ↔
      i.color_space = j.color_space ∧ i.metadata = j.metadata ∧
        i.pixels.data = j.pixels.data) ∧
    (sameQ i j = true → i.pixels.dtype = j.pixels.dtype → hashKey i = hashKey j) := by
  constructor
  · simp [sameQ, array_equal, and_assoc]
  · intro hsame hdt
    have h1 : (i.color_space = j.color_space ∧ i.metadata = j.metadata) ∧
        i.pixels.data = j.pixels.data := by
      simpa [sameQ, array_equal] using hsame
    simp [hashKey, tobytes, h1.1.1, h1.1.2, h1.2, hdt]

/-- Same pixel content and attributes with diverging provenance (one
image carries a cached pillow handle, the other does not). -/
def c4imgA : MImage := ⟨⟨.uint8, [[[7], [9]]]⟩, "RGB", [], true⟩

/-- The twin of `c4imgA` without the cached handle. -/
def c4imgB : MImage := ⟨⟨.uint8, [[[7], [9]]]⟩, "RGB", [], false⟩

/-- C4 witness: the amended theorem applied to two concrete images with
identical content but different provenance: they compare equal and hash
equal. -/
theorem c4_witness :
    sameQ c4imgA c4imgB = true ∧ hashKey c4imgA = hashKey c4imgB :=
  ⟨by decide, (c4_sameQ_hash c4imgA c4imgB).2 (by decide) (by decide)⟩

/-! ## Claim C6: reflection symmetry -/

/-- Sorting the side pair is order independent. -/
theorem sortPair_comm (a b : Side) : sortPair a b = sortPair b a := by
  cases a <;> cases b <;> rfl

/-- Looking up a degenerate pair always yields the identity method. -/
theorem reflectMethod_diag (a : Side) : reflectMethod (sortPair a a) = some id := by
  cases a <;> rfl

/-- An image with nonempty metadata: every ImageReflect result has empty
metadata, so the degenerate reflection is not sameQ-equal to it. -/
def c6img : MImage := ⟨⟨.float64, [[[0]]]⟩, "Grayscale", [("Author", "x")], false⟩

/-- C6 counterexample: for an image carrying metadata, the degenerate
reflection `Top -> Top` returns an image that does NOT compare equal to
the input, because the eval constructs the result image without
propagating the metadata and sameQ compares metadata. -/
theorem c6_counterexample :
    (imageReflect c6img Side.top Side.top).map (fun r => sameQ r c6img) =
      some false := by
  decide

/-- C6 (amended): for every image and every side pair,
`ImageReflect[image, A -> B]` and `ImageReflect[image, B -> A]` return
identical results (the pair is sorted before the table lookup); and for
every image whose metadata is empty — as produced by every constructor
in this module — the degenerate reflection `A -> A` returns an image
that compares equal (sameQ) to the input, for all four sides. -/
theorem c6_reflect_symmetry :
    (∀ (img : MImage) (a b : Side),
      imageReflect img a b = imageReflect img b a) ∧
    (∀ (img : MImage) (a : Side), img.metadata = [] →
      (imageReflect img a a).map (fun r => sameQ r img) = some true) := by
  constructor
  · intro img a b
    unfold imageReflect
    rw [sortPair_comm]
  · intro img a hm
    unfold imageReflect
    rw [reflectMethod_diag]
    simp [sameQ, array_equal, hm]

/-- A metadata-free image for the C6 witness. -/
def c6wimg : MImage := ⟨⟨.uint8, [[[3], [4]], [[5], [6]]]⟩, "Grayscale", [], false⟩

/-- C6 witness: both conjuncts of the amended theorem at a concrete
image, with the empty-metadata hypothesis discharged. -/
theorem c6_witness :
    imageReflect c6wimg Side.top Side.bottom =
      imageReflect c6wimg Side.bottom Side.top ∧
    (imageReflect c6wimg Side.left Side.left).map (fun r => sameQ r c6wimg) =
      some true :=
  ⟨c6_reflect_symmetry.1 c6wimg Side.top Side.bottom,
   c6_reflect_symmetry.2 c6wimg Side.left rfl⟩

/-! ## Claim C1: ImageTake with a single integer -/

/-- A 2-row image built from an array (no cached pillow handle, the
normal case for `Image[array]`). -/
def c1img : MImage :=
  ⟨⟨.float64, [[[0], [1/2]], [[1], [1/10]]]⟩, "Grayscale", [], false⟩

/-- The same image with a cached pillow handle. -/
def c1pimg : MImage :=
  ⟨⟨.float64, [[[0], [1/2]], [[1], [1/10]]]⟩, "Grayscale", [], true⟩

/-- C1: on an image without a cached pillow handle — the case produced
by `Image[array]` — `ImageTake[image, n]` raises UnboundLocalError for
every n (the fallback return references the unassigned local `pillow`),
so neither the whole image nor an empty image is returned; the claimed
invariants hold only on the pillow-cached path, as witnessed by the last
three conjuncts (n at or above the height keeps all rows, likewise for
-n, and n = 0 keeps zero rows). -/
theorem c1_take_n :
    imageTake_eval_n c1img 2 = none ∧
    imageTake_eval_n c1img (-2) = none ∧
    imageTake_eval_n c1img 0 = none ∧
    (imageTake_eval_n c1pimg 5).map (fun r => r.pixels.data) =
      some c1pimg.pixels.data ∧
    (imageTake_eval_n c1pimg (-5)).map (fun r => r.pixels.data) =
      some c1pimg.pixels.data ∧
    (imageTake_eval_n c1pimg 0).map (fun r => r.pixels.data) = some [] := by
  decide

/-! ## Claim C2: ImageTake with row and column ranges -/

/-- A pillow-cached 3 by 3 image with distinct values. -/
def c2img : MImage :=
  ⟨⟨.uint8, [[[1], [2], [3]], [[4], [5], [6]], [[7], [8], [9]]]⟩,
   "Grayscale", [], true⟩

/-- `c2img` without the cached pillow handle. -/
def c2imgNoPil : MImage :=
  ⟨⟨.uint8, [[[1], [2], [3]], [[4], [5], [6]], [[7], [8], [9]]]⟩,
   "Grayscale", [], false⟩

/-- C2: for the in-range request rows 1..2, columns 1..3 on a 3 by 3
image, the pillow path of `eval_rows_cols` crops the box
`(first_col, first_row, last_col, last_row)` without the 1-based
conversion, returning only row 2 and columns 2..3 — not the composition
of the two single-axis crops, which is the whole 2 by 3 upper block; on
an image without the cached handle the method raises UnboundLocalError
instead of returning anything. -/
theorem c2_rows_cols :
    (imageTake_eval_rows_cols c2img 1 2 1 3).map (fun r => r.pixels.data) =
      some [[[5], [6]]] ∧
    specRowsColsCrop c2img.pixels.data 1 2 1 3 =
      [[[1], [2], [3]], [[4], [5], [6]]] ∧
    (imageTake_eval_rows_cols c2img 1 2 1 3).map (fun r => r.pixels.data) ≠
      some (specRowsColsCrop c2img.pixels.data 1 2 1 3) ∧
    imageTake_eval_rows_cols c2imgNoPil 1 2 1 3 = none := by
  decide

/-! ## Claim C3: reversed ranges -/

/-- A 3-row image without a cached pillow handle. -/
def c3img : MImage := ⟨⟨.uint8, [[[1]], [[2]], [[3]]]⟩, "Grayscale", [], false⟩

/-- `c3img` with the cached pillow handle. -/
def c3pimg : MImage := ⟨⟨.uint8, [[[1]], [[2]], [[3]]]⟩, "Grayscale", [], true⟩

/-- C3: the reversal semantics lives only in the unused helper
`_image_slice`: applied to the reversed range {3, 1} on 3 rows it
selects the full slice with the flip flag set, so the helper would
return the rows reversed; but the active `eval_rows` never calls it —
on the array path it raises UnboundLocalError, and on the pillow path
the inverted crop box `(0, 3, width, 1)` makes PIL raise ValueError —
so ImageTake never returns the reversed sub-range. -/
theorem c3_reversed_range :
    image_slice 3 3 1 = ((0, 3), true) ∧
    image_slice_rows c3img.pixels.data 3 1 = [[[3]], [[2]], [[1]]] ∧
    imageTake_eval_rows c3img 3 1 = none ∧
    imageTake_eval_rows c3pimg 3 1 = none := by
  decide

/-! ## Claim C7: arithmetic results are clipped to the unit interval -/

/-- Flattening commutes with the elementwise map. -/
theorem flat3_map3 (f : Rat → Rat) (d : Pix3) :
    flat3 (map3 f d) = (flat3 d).map f := by
  simp only [flat3, map3, List.map_flatten]

/-- Every clipped value lies in the unit interval. -/
theorem clip01_mem_unit (q : Rat) : 0 ≤ clip01 q ∧ clip01 q ≤ 1 := by
  unfold clip01
  exact ⟨le_min (by norm_num) (le_max_left 0 q), min_le_left 1 _⟩

/-- C7: whenever ImageAdd, ImageSubtract or ImageMultiply produces a
result image, every pixel value of that image lies in the interval
0..1 — the reduction result is clipped before the image is built —
regardless of the operator, the input image and the other operands. -/
theorem c7_arith_clipped (op : ArithOp) (img : MImage) (args : List Arg)
    (res : MImage) (h : arithEval op img args = ArithResult.image res) :
    ∀ v ∈ flat3 res.pixels.data, 0 ≤ v ∧ v ≤ 1 := by
  intro v hv
  unfold arithEval at h
  split at h
  · exact absurd h (by simp)
  · split at h
    · exact absurd h (by simp)
    · rename_i d hd
      cases h
      rw [flat3_map3] at hv
      obtain ⟨w, _, hw⟩ := List.mem_map.1 hv
      rw [← hw]
      exact clip01_mem_unit w

/-- The image of the concrete C7 scenario. -/
def c7img : MImage := ⟨⟨.float64, [[[0], [1/2]]]⟩, "Grayscale", [], false⟩

/-- The result of adding the scalar 5 to `c7img`: both sums exceed 1 and
are clipped down to 1. -/
def c7res : MImage := ⟨⟨.float64, [[[1], [1]]]⟩, "Grayscale", [], false⟩

/-- C7 witness: the theorem applied to the concrete scenario of adding
the out-of-range scalar 5, instantiated at the first result pixel. -/
theorem c7_witness : 0 ≤ (1 : Rat) ∧ (1 : Rat) ≤ 1 :=
  c7_arith_clipped ArithOp.add c7img [Arg.num 5] c7res (by decide) 1 (by decide)

/-! ## Claim C9: arithmetic type mismatch -/

/-- Whether an operand converts (it is an image or a number). -/
def isNumOrImage : Arg → Bool
  | .other _ => false
  | _ => true

/-- The first operand in the list that fails to convert. -/
def firstBad : List Arg → Option Arg
  | [] => none
  | a :: rest => if isNumOrImage a then firstBad rest else some a

/-- `convert_args` fails with exactly the first inconvertible operand. -/
theorem convert_args_error {args : List Arg} {a : Arg}
    (h : firstBad args = some a) : convert_args args = Except.error a := by
  induction args with
  | nil => exact absurd h (by simp [firstBad])
  | cons x rest ih =>
    cases x with
    | num q =>
      simp only [firstBad, isNumOrImage, if_true] at h
      simp [convert_args, ih h, Except.map]
    | image i =>
      simp only [firstBad, isNumOrImage, if_true] at h
      simp [convert_args, ih h, Except.map]
    | other n =>
      simp only [firstBad, isNumOrImage, Bool.false_eq_true, if_false,
        Option.some.injEq] at h
      rw [convert_args, h]

/-- A small valid image for the C9 statements. -/
def c9img : MImage := ⟨⟨.float64, [[[0]]]⟩, "Grayscale", [], false⟩

/-- C9 counterexample: the `bddarg` message does not identify the
position of the offending operand: the same offending operand at
argument position 2 and at argument position 3 produces the identical
message (the message template names only the operand itself). -/
theorem c9_counterexample :
    arithEval ArithOp.add c9img [Arg.other "x"] =
      ArithResult.message (Arg.other "x") ∧
    arithEval ArithOp.add c9img [Arg.num (1/2), Arg.other "x"] =
      ArithResult.message (Arg.other "x") := by
  decide

/-- C9 (amended): for every call to ImageAdd, ImageSubtract or
ImageMultiply in which some operand is neither a number nor an image,
the operation produces no image and instead reports the type-mismatch
message naming the first such operand (but not its position); the
triggering expression is then left unevaluated. -/
theorem c9_first_bad_reported (op : ArithOp) (img : MImage) (args : List Arg)
    (a : Arg) (h : firstBad args = some a) :
    arithEval op img args = ArithResult.message a := by
  unfold arithEval convert_args
  rw [convert_args_error h]
  rfl

/-- C9 witness: the amended theorem applied to a concrete argument list
whose second entry is the symbol y. -/
theorem c9_witness :
    arithEval ArithOp.multiply c9img [Arg.num 2, Arg.other "y"] =
      ArithResult.message (Arg.other "y") :=
  c9_first_bad_reported ArithOp.multiply c9img [Arg.num 2, Arg.other "y"]
    (Arg.other "y") (by decide)

/-! ## Claim C8: PixelValue addressing and bounds -/

/-- Reading position `y` from the bottom of a list (1-based) is reading
position `length - y` from the top. -/
theorem getD_reverse_bottom {α : Type} (l : List α) (d : α) (y : Int)
    (h1 : 1 ≤ y) (h2 : y ≤ l.length) :
    l.reverse.getD (y - 1).toNat d = l.getD ((l.length : Int) - y).toNat d := by
  have hy : (y - 1).toNat < l.length := by omega
  have hy2 : ((l.length : Int) - y).toNat < l.length := by omega
  rw [List.getD_eq_getElem _ _ (by simpa using hy), List.getD_eq_getElem _ _ hy2]
  rw [List.getElem_reverse]
  congr 1
  omega

/-- C8: for in-range coordinates, `PixelValue[image, {x, y}]` returns
the channel values of the float-normalized pixel at row `height - y`,
column `x - 1` — equivalently, row `y` counted 1-based from the BOTTOM
of the image and column `x` counted 1-based from the left — and for any
coordinates outside `1..width × 1..height` it reports the nopad message
(no silent clamping). -/
theorem c8_pixelValue (img : MImage) (x y : Int) :
    (1 ≤ x → x ≤ ((img.pixels.data.headD []).length : Int) →
     1 ≤ y → y ≤ (img.pixels.data.length : Int) →
      pixelValue img x y =
        some (((pixels_as_float img.pixels).data.reverse.getD (y - 1).toNat
          []).getD (x - 1).toNat [])) ∧
    (¬(1 ≤ x ∧ x ≤ ((img.pixels.data.headD []).length : Int) ∧
       1 ≤ y ∧ y ≤ (img.pixels.data.length : Int)) →
      pixelValue img x y = none) := by
  have hlen : (pixels_as_float img.pixels).data.length =
      img.pixels.data.length := by
    simp [pixels_as_float, map3]
  constructor
  · intro hx1 hx2 hy1 hy2
    unfold pixelValue
    rw [if_pos ⟨hx1, hx2, hy1, hy2⟩]
    rw [getD_reverse_bottom _ _ y hy1 (by omega), hlen]
  · intro hout
    unfold pixelValue
    exact if_neg hout

/-- A 2 by 2 uint8 image: stored top row `(51, 102)`, bottom row
`(229, 153)`. -/
def c8img : MImage :=
  ⟨⟨.uint8, [[[51], [102]], [[229], [153]]]⟩, "Grayscale", [], false⟩

/-- C8 witness: on the concrete image, the in-range lookup `(1, 1)`
returns the normalized bottom-left pixel `229/255`, and the out-of-range
lookup `(0, 1)` reports the error. -/
theorem c8_witness :
    pixelValue c8img 1 1 = some [mkRat 229 255] ∧
    pixelValue c8img 0 1 = none :=
  ⟨((c8_pixelValue c8img 1 1).1 (by decide) (by decide) (by decide)
      (by decide)).trans (by decide),
   (c8_pixelValue c8img 0 1).2 (by decide)⟩

/-! ## Claim C10: construction clips raw data -/

/-- The float64 array the constructor builds before clipping (with the
reshape of two dimensional data to one channel). -/
def rawData : PyRaw → Pix3
  | .r2 m => m.map (fun row => row.map (fun v => [v]))
  | .r3 p => p

/-- C10: whenever `Image[array]` accepts a raw numeric array, the stored
pixel array is the raw data clipped elementwise to 0..1 (values below 0
become 0, values above 1 become 1), so every stored pixel value lies in
the unit interval. -/
theorem c10_create_clips (raw : PyRaw) (img : MImage)
    (h : eval_create raw = some img) :
    (∀ v ∈ flat3 img.pixels.data, 0 ≤ v ∧ v ≤ 1) ∧
    img.pixels.data = map3 clip01 (rawData raw) ∧
    (∀ q : Rat, clip01 q = if q < 0 then 0 else if 1 < q then 1 else q) := by
  have hdata : img.pixels.data = map3 clip01 (rawData raw) := by
    unfold eval_create at h
    obtain ⟨a, ha, hfa⟩ := Option.map_eq_some'.1 h
    have himg : img.pixels.data = map3 clip01 a.data := by rw [← hfa]
    rw [himg]
    cases raw with
    | r2 m =>
      simp only [image_pixels] at ha
      split at ha
      · cases Option.some.inj ha
        rfl
      · simp at ha
    | r3 p =>
      simp only [image_pixels] at ha
      split at ha
      · cases Option.some.inj ha
        rfl
      · simp at ha
  refine ⟨?_, hdata, ?_⟩
  · intro v hv
    rw [hdata, flat3_map3] at hv
    obtain ⟨w, _, hw⟩ := List.mem_map.1 hv
    rw [← hw]
    exact clip01_mem_unit w
  · intro q
    unfold clip01
    by_cases h0 : q < 0
    · rw [if_pos h0, max_eq_left h0.le, min_eq_right (by norm_num : (0:Rat) ≤ 1)]
    · rw [if_neg h0, max_eq_right (not_lt.1 h0)]
      by_cases h1 : 1 < q
      · rw [if_pos h1, min_eq_left h1.le]
      · rw [if_neg h1, min_eq_right (not_lt.1 h1)]

/-- The image built from the out-of-range raw matrix `[[-1, 2]]`. -/
def c10res : MImage := ⟨⟨.float64, [[[0], [1]]]⟩, "Grayscale", [], false⟩

/-- C10 witness: the theorem applied to the concrete raw data
`[[-1, 2]]`, instantiated at the first stored pixel value 0. -/
theorem c10_witness :
    eval_create (PyRaw.r2 [[-1, 2]]) = some c10res ∧ 0 ≤ (0 : Rat) ∧ (0 : Rat) ≤ 1 :=
  ⟨by decide,
   (c10_create_clips (PyRaw.r2 [[-1, 2]]) c10res (by decide)).1 0 (by decide)⟩

/-! ## Claim C5: correctness of the vectorized binary search -/

/-- The fuel argument does not matter once it is at least the loop
start value. -/
theorem iterCountAux_congr :
    ∀ f1 f2 q, q ≤ f1 → q ≤ f2 → iterCountAux f1 q = iterCountAux f2 q := by
  intro f1
  induction f1 with
  | zero =>
    intro f2 q h1 _
    have hq : q = 0 := by omega
    subst hq
    cases f2 with
    | zero => rfl
    | succ f => simp [iterCountAux]
  | succ f1 ih =>
    intro f2 q h1 h2
    by_cases hq : 2 < q
    · cases f2 with
      | zero => omega
      | succ f2 =>
        simp only [iterCountAux, if_pos hq]
        have hlt : (q + 1) / 2 < q := by omega
        rw [ih f2 ((q + 1) / 2) (by omega) (by omega)]
    · cases f2 with
      | zero =>
        have hq0 : q = 0 := by omega
        subst hq0
        simp [iterCountAux]
      | succ f2 => simp [iterCountAux, if_neg hq]

/-- The defining recurrence of the loop count. -/
theorem iterCount_eq (q : Nat) :
    iterCount q = if 2 < q then iterCount ((q + 1) / 2) + 1 else 0 := by
  by_cases hq : 2 < q
  · rw [if_pos hq]
    unfold iterCount
    cases q with
    | zero => omega
    | succ f =>
      simp only [iterCountAux, if_pos hq]
      rw [iterCountAux_congr f ((f + 2) / 2) ((f + 1 + 1) / 2) (by omega) (by omega)]
  · rw [if_neg hq]
    unfold iterCount
    cases q with
    | zero => rfl
    | succ f => simp [iterCountAux, if_neg hq]

/-- The sorted distinct list has no duplicate values. -/
theorem npUnique_nodup (l : List Rat) : (npUnique l).Nodup :=
  ((List.perm_insertionSort _ l.dedup).nodup_iff).2 (List.nodup_dedup l)

/-- The sorted distinct list is strictly ascending. -/
theorem npUnique_sorted_lt (l : List Rat) : (npUnique l).Sorted (· < ·) :=
  (List.sorted_insertionSort (· ≤ ·) l.dedup).lt_of_le (npUnique_nodup l)

/-- Membership in the sorted distinct list is membership in the input. -/
theorem mem_npUnique {l : List Rat} {v : Rat} : v ∈ npUnique l ↔ v ∈ l := by
  unfold npUnique
  rw [(List.perm_insertionSort _ l.dedup).mem_iff, List.mem_dedup]

/-- The distinct count is the number of distinct values. -/
theorem npUnique_length (l : List Rat) : (npUnique l).length = l.dedup.length :=
  (List.perm_insertionSort _ l.dedup).length_eq

/-- In a strictly ascending list, a smaller index holds a smaller
value. -/
theorem sorted_getD_lt (h : List Rat) (hs : h.Sorted (· < ·)) {m r : Nat}
    (hm : m < h.length) (hr : r < h.length) (hmr : m < r) :
    h.getD m 0 < h.getD r 0 := by
  rw [List.getD_eq_getElem _ _ hm, List.getD_eq_getElem _ _ hr]
  exact @List.Sorted.rel_get_of_lt _ _ _ hs ⟨m, hm⟩ ⟨r, hr⟩ hmr

/-- In a strictly ascending list, index order gives value order. -/
theorem sorted_getD_le (h : List Rat) (hs : h.Sorted (· < ·)) {m r : Nat}
    (hm : m < h.length) (hr : r < h.length) (hmr : m ≤ r) :
    h.getD m 0 ≤ h.getD r 0 := by
  rcases Nat.lt_or_ge m r with hlt | hge
  · exact (sorted_getD_lt h hs hm hr hlt).le
  · have : m = r := by omega
    subst this
    exact le_refl _

/-- Window invariant of the lock step binary search: searching for the
value stored at index `r`, starting from a window `l..u` that contains
`r` and has size at most `q`, after the `iterCount q` rounds of the loop
the window still contains `r`, stays inside the list, and has shrunk to
size at most 2. -/
theorem searchIter_window (h : List Rat) (v : Rat) (hs : h.Sorted (· < ·))
    (r : Nat) (hr : r < h.length) (hv : h.getD r 0 = v) :
    ∀ q l u, l ≤ r → r ≤ u → u < h.length → u + 1 - l ≤ q →
      (searchIter h v (iterCount q) (l, u)).1 ≤ r ∧
      r ≤ (searchIter h v (iterCount q) (l, u)).2 ∧
      (searchIter h v (iterCount q) (l, u)).2 < h.length ∧
      (searchIter h v (iterCount q) (l, u)).2 ≤
        (searchIter h v (iterCount q) (l, u)).1 + 1 := by
  intro q
  induction q using Nat.strong_induction_on with
  | _ q ih =>
    intro l u hl hu hulen hwin
    by_cases hq : 2 < q
    · rw [iterCount_eq, if_pos hq]
      have hstep : searchIter h v (iterCount ((q + 1) / 2) + 1) (l, u) =
          searchIter h v (iterCount ((q + 1) / 2)) (searchStep h v (l, u)) := rfl
      rw [hstep]
      have hmu : (l + u) / 2 ≤ u := by omega
      have hmlen : (l + u) / 2 < h.length := by omega
      have hq2 : (q + 1) / 2 < q := by omega
      by_cases hcmp : v ≤ h.getD ((l + u) / 2) 0
      · have hstep2 : searchStep h v (l, u) = (l, (l + u) / 2) := by
          simp only [searchStep]
          rw [if_pos hcmp]
        rw [hstep2]
        have hrm : r ≤ (l + u) / 2 := by
          by_contra hc
          push_neg at hc
          have hlt := sorted_getD_lt h hs hmlen hr hc
          rw [hv] at hlt
          exact absurd hcmp (not_le.2 hlt)
        exact ih _ hq2 l ((l + u) / 2) hl hrm (by omega) (by omega)
      · have hstep2 : searchStep h v (l, u) = ((l + u) / 2 + 1, u) := by
          simp only [searchStep]
          rw [if_neg hcmp]
        rw [hstep2]
        have hmr : (l + u) / 2 < r := by
          by_contra hc
          push_neg at hc
          have hle := sorted_getD_le h hs hr hmlen hc
          rw [hv] at hle
          exact hcmp hle
        exact ih _ hq2 ((l + u) / 2 + 1) u hmr hu hulen (by omega)
    · rw [iterCount_eq, if_neg hq]
      simp only [searchIter]
      exact ⟨hl, hu, hulen, by omega⟩

/-- The binary search computes the 0-based position of a value in a
strictly ascending list containing it. -/
theorem elemRank_eq_indexOf (h : List Rat) (v : Rat)
    (hs : h.Sorted (· < ·)) (hnd : h.Nodup) (hmem : v ∈ h) :
    elemRank h v = h.indexOf v := by
  have hr : h.indexOf v < h.length := List.indexOf_lt_length.2 hmem
  have hv : h.getD (h.indexOf v) 0 = v := by
    rw [List.getD_eq_getElem _ _ hr]
    exact List.getElem_indexOf hr
  obtain ⟨h1, h2, h3, h4⟩ := searchIter_window h v hs (h.indexOf v) hr hv
    h.length 0 (h.length - 1) (by omega) (by omega) (by omega) (by omega)
  unfold elemRank
  split
  · rename_i hc
    have hl1 : (searchIter h v (iterCount h.length) (0, h.length - 1)).1 <
        h.length := by omega
    rw [List.getD_eq_getElem _ _ hl1] at hc
    have hv2 : h[h.indexOf v] = v := List.getElem_indexOf hr
    have heq2 :
        h[(searchIter h v (iterCount h.length) (0, h.length - 1)).1] =
          h[h.indexOf v] := by
      rw [hc, hv2]
    exact (@List.Nodup.getElem_inj_iff _ _ hnd _ hl1 _ hr).1 heq2
  · rename_i hc
    have hne : h.indexOf v ≠
        (searchIter h v (iterCount h.length) (0, h.length - 1)).1 := by
      intro hcontr
      apply hc
      rw [← hcontr]
      exact hv
    omega

/-- C5: for every two dimensional numeric array, `_linearize` returns
the number of distinct values as the distinct count; the rank array has
the shape of the input, with every element mapped to the 0-based
position of its value in the ascending sorted list of distinct values
(so equal values share a rank and rank 0 is the minimum); and the
concrete input [[1.3, 2.1, 1.5], [1.3, 1.3, 2.1]] yields distinct count
3 and ranks [[0, 2, 1], [0, 0, 2]]. -/
theorem c5_linearize_correct :
    (∀ a : List (List Rat),
      (linearize a).2 = a.flatten.dedup.length ∧
      (npUnique a.flatten).Sorted (· < ·) ∧
      (∀ v : Rat, v ∈ npUnique a.flatten ↔ v ∈ a.flatten) ∧
      (linearize a).1 =
        a.map (fun row => row.map
          (fun v => (npUnique a.flatten).indexOf v))) ∧
    linearize [[1.3, 2.1, 1.5], [1.3, 1.3, 2.1]] =
      ([[0, 2, 1], [0, 0, 2]], 3) := by
  constructor
  · intro a
    refine ⟨npUnique_length a.flatten, npUnique_sorted_lt a.flatten,
      fun v => mem_npUnique, ?_⟩
    unfold linearize
    simp only
    apply List.map_congr_left
    intro row hrow
    apply List.map_congr_left
    intro v hvrow
    exact elemRank_eq_indexOf _ v (npUnique_sorted_lt _) (npUnique_nodup _)
      (mem_npUnique.2 (List.mem_flatten.2 ⟨row, hrow, hvrow⟩))
  · decide

end MathicsImage
